import Mathlib

/-
  Verification development for the hh.ru vacancy parser (main.py).

  The Python program is shallowly embedded in Lean:
  * `date_range` is the date-window planner (a pure generator in the source);
    the Python `while` loop is modelled with an explicit fuel parameter, so
    that non-termination of the source loop (which can only happen for a
    non-positive step) shows up as fuel exhaustion.
  * `get_vacancies` / `fetchLoop` is the paginated fetcher.  The network is
    modelled as a script: a finite list of `Response`s, consumed one per
    issued HTTP request.  The cooperative cancellation flag `self.running`
    is modelled as a function `Nat → Bool` read once per loop-head check,
    indexed by a global check counter that is threaded through the run.
    The result records the accumulated items, the request parameters of
    every issued request, all sleep pauses (in milliseconds) and the reason
    the loop exited, so that the retry/rate-limit/cancellation behaviour of
    the source is fully observable.
  * `save_to_excel` is the tabular exporter: row construction, the
    filename sanitisation and the guarded spreadsheet write.  The external
    `dateutil` parser is a collaborator and is therefore a parameter
    `parse : String → Option ParsedDate`; `none` models a parse exception.
  * `run` is the cancellable worker (`ParserThread.run`): the `try/except
    Exception/finally` structure is embedded as `finallyEmit (runBody …)`,
    where the body can finish normally, return early on cancellation, or
    raise (unexpected top-level errors are modelled by an explicit fault
    injection `inject`); the handler turns a raise into a logged critical
    error, and `finallyEmit` performs the `finally:` block.
-/

namespace JobParser

/-- Outcome of a single HTTP request, as distinguished by the source:
a 403 rate-limit status, a successful JSON body (with optional `items`
and `pages` fields, mirroring `data.get("items", [])` and
`data.get("pages", 1)`), a `requests.exceptions.ConnectionError`, a
`requests.exceptions.Timeout`, or any other request error (bad HTTP
status from `raise_for_status`, malformed JSON body, ...). -/
inductive Response (α : Type) where
  | rateLimited : Response α
  | ok : Option (List α) → Option Nat → Response α
  | connError : Response α
  | timeout : Response α
  | otherError : Response α
deriving DecidableEq

/-- The `params` dict built at the top of `get_vacancies`.  Only the
`page` entry is ever mutated by the source. -/
structure ReqParams where
  text : String
  area : Nat
  date_from : String
  date_to : String
  per_page : Nat
  page : Nat
deriving DecidableEq

/-- `params["page"] += 1` (line 121 of main.py). -/
def nextPage (p : ReqParams) : ReqParams :=
  ⟨p.text, p.area, p.date_from, p.date_to, p.per_page, p.page + 1⟩

/-- Replace the `page` entry of a params dict. -/
def withPage (p : ReqParams) (k : Nat) : ReqParams :=
  ⟨p.text, p.area, p.date_from, p.date_to, p.per_page, k⟩

/-- Why the fetch loop of `get_vacancies` stopped. -/
inductive FetchExit where
  | pagesDone
  | budgetExhausted
  | cancelled
  | otherError
  | scriptEnded
deriving DecidableEq

/-- Observable outcome of one `get_vacancies` call: the returned item
list, the next value of the global flag-check counter, the number of
transient (connection/timeout) failures consumed, the parameters of every
issued request, every `time.sleep` pause in milliseconds, and the exit
reason. -/
structure FetchResult (α : Type) where
  items : List α
  tEnd : Nat
  transientFailures : Nat
  requests : List ReqParams
  sleeps : List Nat
  exitReason : FetchExit
deriving DecidableEq

/-- The `while self.running and retries > 0:` loop of `get_vacancies`
(lines 103-137 of main.py).  One script entry is consumed per issued
request; `t` indexes reads of the cancellation flag. -/
def fetchLoop {α : Type} (flag : Nat → Bool) (script : List (Response α)) (t : Nat)
    (params : ReqParams) (retries : Nat) (acc : List α) (trans : Nat)
    (reqs : List ReqParams) (sleeps : List Nat) : FetchResult α :=
  if flag t = false then
    ⟨acc, t + 1, trans, reqs, sleeps, FetchExit.cancelled⟩
  else if retries = 0 then
    ⟨acc, t + 1, trans, reqs, sleeps, FetchExit.budgetExhausted⟩
  else
    match script with
    | [] => ⟨acc, t + 1, trans, reqs, sleeps, FetchExit.scriptEnded⟩
    | Response.rateLimited :: rest =>
        fetchLoop flag rest (t + 1) params retries acc trans
          (reqs ++ [params]) (sleeps ++ [10000])
    | Response.ok oitems opages :: rest =>
        let acc2 := acc ++ oitems.getD []
        if opages.getD 1 - 1 ≤ params.page then
          ⟨acc2, t + 1, trans, reqs ++ [params], sleeps, FetchExit.pagesDone⟩
        else
          fetchLoop flag rest (t + 1) (nextPage params) 3 acc2 trans
            (reqs ++ [params]) (sleeps ++ [250])
    | Response.connError :: rest =>
        fetchLoop flag rest (t + 1) params (retries - 1) acc (trans + 1)
          (reqs ++ [params]) (sleeps ++ [5000])
    | Response.timeout :: rest =>
        fetchLoop flag rest (t + 1) params (retries - 1) acc (trans + 1)
          (reqs ++ [params]) (sleeps ++ [3000])
    | Response.otherError :: _ =>
        ⟨acc, t + 1, trans, reqs ++ [params], sleeps, FetchExit.otherError⟩

/-- `get_vacancies` (lines 88-139 of main.py): initial params dict with
`area = 113`, `per_page = 100`, `page = 0`, an empty accumulator and a
retry budget of 3. -/
def get_vacancies {α : Type} (flag : Nat → Bool) (script : List (Response α)) (t : Nat)
    (text date_from date_to : String) : FetchResult α :=
  fetchLoop flag script t ⟨text, 113, date_from, date_to, 100, 0⟩ 3 [] 0 [] []

/-- The cancellation flag of a run that is never stopped. -/
def trueFlag : Nat → Bool := fun _ => true

/-- `date_range` (lines 141-149 of main.py), the date-window planner.
Instants are modelled as integers (days work, but any unit does).  The
`while current_date < end_date` loop is given explicit fuel; each step
yields `(current_date, min (current_date + delta) end_date)` and advances
to that minimum, exactly as the source does. -/
def date_range : Nat → Int → Int → Int → List (Int × Int)
  | 0, _, _, _ => []
  | fuel + 1, current_date, end_date, delta =>
    if current_date < end_date then
      (current_date, min (current_date + delta) end_date) ::
        date_range fuel (min (current_date + delta) end_date) end_date delta
    else []

/-- The interval list starts at `s` and each interval begins where the
previous one ended (contiguity, hence also gaplessness). -/
def chainFrom (s : Int) : List (Int × Int) → Bool
  | [] => true
  | (a, b) :: rest => decide (a = s) && chainFrom b rest

/-- End instant of the last interval, if any. -/
def lastSnd (l : List (Int × Int)) : Option Int :=
  l.getLast?.map Prod.snd

/-- The `salary` sub-dictionary of a raw API item; every field nullable. -/
structure Salary where
  fromVal : Option Int
  toVal : Option Int
  currency : Option String
deriving DecidableEq

/-- The `employer` sub-dictionary of a raw API item. -/
structure Employer where
  name : Option String
deriving DecidableEq

/-- The `area` sub-dictionary of a raw API item. -/
structure Area where
  name : Option String
deriving DecidableEq

/-- A raw vacancy item as accessed by `save_to_excel`: every field
optional, sub-dictionaries possibly absent or null. -/
structure Record where
  name : Option String
  salary : Option Salary
  employer : Option Employer
  area : Option Area
  published_at : Option String
  alternate_url : Option String
deriving DecidableEq

/-- A parsed publish timestamp (what `dateutil.parser.parse` returns on
success, restricted to the fields used by `strftime`). -/
structure ParsedDate where
  day : Nat
  month : Nat
  year : Nat
  hour : Nat
  minute : Nat
deriving DecidableEq

/-- Zero-padded two-digit rendering used by `strftime`. -/
def pad2 (n : Nat) : String :=
  if n < 10 then "0" ++ toString n else toString n

/-- The fixed display format `"%d.%m.%Y %H:%M"` of line 165. -/
def strftimeDM (d : ParsedDate) : String :=
  pad2 d.day ++ "." ++ pad2 d.month ++ "." ++ toString d.year ++ " " ++
    pad2 d.hour ++ ":" ++ pad2 d.minute

/-- A spreadsheet cell: empty (a Python `None` rendered by pandas as an
empty cell), a string, or a number. -/
inductive Cell where
  | empty : Cell
  | str : String → Cell
  | num : Int → Cell
deriving DecidableEq

/-- A nullable string rendered into a cell. -/
def cellOfStr : Option String → Cell
  | none => Cell.empty
  | some s => Cell.str s

/-- A nullable number rendered into a cell. -/
def cellOfNum : Option Int → Cell
  | none => Cell.empty
  | some n => Cell.num n

/-- Lines 163-167 of main.py: `parser.parse(item.get("published_at", ""))
.strftime("%d.%m.%Y %H:%M")` guarded by `try/except` with fallback
`"N/A"`. -/
def pubCell (parse : String → Option ParsedDate) (item : Record) : String :=
  match parse (item.published_at.getD "") with
  | some d => strftimeDM d
  | none => "N/A"

/-- Lines 158-178 of main.py: build one export row from a raw item, with
`salary`/`employer`/`area` defaulted to empty dictionaries when null. -/
def makeRow (parse : String → Option ParsedDate) (item : Record) : List Cell :=
  let salary : Salary := item.salary.getD ⟨none, none, none⟩
  let employer : Employer := item.employer.getD ⟨none⟩
  let area : Area := item.area.getD ⟨none⟩
  [cellOfStr item.name, cellOfStr employer.name, cellOfNum salary.fromVal,
    cellOfNum salary.toVal, cellOfStr salary.currency, cellOfStr area.name,
    Cell.str (pubCell parse item), cellOfStr item.alternate_url]

/-- The header row written by the exporter (the dict keys of line
169-178, in order). -/
def header : List String :=
  ["Название", "Компания", "Зарплата от", "Зарплата до", "Валюта",
    "Регион", "Дата публикации", "Ссылка"]

/-- Line 182: `c if c.isalnum() or c in ('_', '-') else '_'`. -/
def sanitizeChar (c : Char) : Char :=
  if c.isAlphanum || c = '_' || c = '-' then c else '_'

/-- Python's `str.rstrip('_')`: drop trailing underscores. -/
def rstripUnderscore (l : List Char) : List Char :=
  (l.reverse.dropWhile (fun c => c = '_')).reverse

/-- Line 182 of main.py: the sanitised base filename. -/
def safe_name (profession : String) : String :=
  String.mk (rstripUnderscore (profession.data.map sanitizeChar))

/-- Line 183 of main.py: the full output filename. -/
def file_name (profession : String) : String :=
  safe_name profession ++ "_vacancies.xlsx"

/-- Observable outcome of `save_to_excel`: the data rows, the output
filename and whether the guarded write succeeded (a failed write is
logged, never raised — lines 185-205). -/
structure SaveOut where
  rows : List (List Cell)
  fileNameOut : String
  written : Bool
deriving DecidableEq

/-- `save_to_excel` (lines 151-205 of main.py).  Falsy (null) items are
skipped; each remaining item becomes one row; the write itself either
succeeds or fails (`writeOk`), and a failure is caught internally. -/
def save_to_excel (parse : String → Option ParsedDate) (profession : String)
    (vacancies : List (Option Record)) (writeOk : Bool) : SaveOut :=
  let data := (vacancies.filterMap id).map (makeRow parse)
  ⟨data, file_name profession, writeOk⟩

/-- How the `try:` body of `ParserThread.run` was left: the interval loop
ran to completion, the cancellation `return` of line 54 fired, or an
unexpected exception was raised inside the body. -/
inductive BodyExit where
  | completed
  | cancelledEarly
  | raised
deriving DecidableEq

/-- State of the worker when its interval loop stops. -/
structure LoopOut (α : Type) where
  exitKind : BodyExit
  tEnd : Nat
  acc : List α
  progress : List Nat
deriving DecidableEq

/-- `datetime.isoformat()` serialisation, abstracted. -/
def isoformat (t : Int) : String := toString t

/-- The `for i, (date_from, date_to) in enumerate(date_intervals):` loop
of lines 52-72 of main.py.  The flag is read at each interval boundary
(line 53); `inject i = true` models an unexpected Python exception raised
while processing interval `i`; each interval's network traffic is the
script `scripts i`. -/
def runLoop {α : Type} (flag : Nat → Bool) (scripts : Nat → List (Response α))
    (inject : Nat → Bool) (text : String) :
    List (Int × Int) → Nat → Nat → Nat → List α → List Nat → LoopOut α
  | [], _, t, _, acc, prog => ⟨BodyExit.completed, t, acc, prog⟩
  | iv :: rest, i, t, total, acc, prog =>
    if flag t = false then ⟨BodyExit.cancelledEarly, t + 1, acc, prog⟩
    else if inject i then ⟨BodyExit.raised, t + 1, acc, prog⟩
    else
      let p := (i + 1) * 100 / total
      let r := get_vacancies flag (scripts i) (t + 1) text (isoformat iv.1) (isoformat iv.2)
      runLoop flag scripts inject text rest (i + 1) r.tEnd total (acc ++ r.items) (prog ++ [p])

/-- Observable outcome of one worker run: how many times the terminal
`finished` signal was emitted, whether an exception escaped to the
controller, whether the critical-error handler logged, the accumulated
items, what (if anything) was exported, and the emitted progress values. -/
structure RunResult (α : Type) where
  finishedEmits : Nat
  raisedToController : Bool
  criticalLogged : Bool
  acc : List α
  savedRows : Option (List (List Cell))
  savedFile : Option String
  fileWritten : Bool
  progress : List Nat
deriving DecidableEq

/-- The `try:` body of `ParserThread.run` together with its
`except Exception` handler (lines 40-84 of main.py): plan the intervals
(30-day lookback, 7-day step), loop over them, then export if anything
was accumulated.  A cancellation `return` skips the export; a raised
exception is caught and logged as a critical error.  `finishedEmits` is
0 here: the terminal signal belongs to the `finally:` block. -/
def runBody (flag : Nat → Bool) (scripts : Nat → List (Response (Option Record)))
    (inject : Nat → Bool) (parse : String → Option ParsedDate)
    (profession : String) (endDate : Int) (writeOk : Bool) : RunResult (Option Record) :=
  let start_date := endDate - 30
  let ivs := date_range 30 start_date endDate 7
  let lo := runLoop flag scripts inject profession ivs 0 0 ivs.length [] []
  match lo.exitKind with
  | BodyExit.cancelledEarly => ⟨0, false, false, lo.acc, none, none, false, lo.progress⟩
  | BodyExit.raised => ⟨0, false, true, lo.acc, none, none, false, lo.progress⟩
  | BodyExit.completed =>
    if lo.acc.isEmpty then
      ⟨0, false, false, lo.acc, none, none, false, lo.progress ++ [100]⟩
    else
      let s := save_to_excel parse profession lo.acc writeOk
      ⟨0, false, false, lo.acc, some s.rows, some s.fileNameOut, s.written, lo.progress ++ [100]⟩

/-- The `finally: self.finished.emit()` block of lines 85-86. -/
def finallyEmit {α : Type} (r : RunResult α) : RunResult α :=
  ⟨r.finishedEmits + 1, r.raisedToController, r.criticalLogged, r.acc,
    r.savedRows, r.savedFile, r.fileWritten, r.progress⟩

/-- `ParserThread.run` (lines 38-86 of main.py): the guarded body wrapped
by the `finally:` block. -/
def run (flag : Nat → Bool) (scripts : Nat → List (Response (Option Record)))
    (inject : Nat → Bool) (parse : String → Option ParsedDate)
    (profession : String) (endDate : Int) (writeOk : Bool) : RunResult (Option Record) :=
  finallyEmit (runBody flag scripts inject parse profession endDate writeOk)

/-- A fault-injection function that never fires. -/
def noInject : Nat → Bool := fun _ => false

/-- A date parser that always fails. -/
def parse0 : String → Option ParsedDate := fun _ => none

/-- A cancellation flag cleared from the fifth check onwards. -/
def cancelFlag4 : Nat → Bool := fun t => decide (t < 4)

/-- A cancellation flag cleared from the third check onwards. -/
def cancelFlag2 : Nat → Bool := fun t => decide (t < 2)

/-- A concrete vacancy item. -/
def recA : Record := ⟨some "a", none, none, none, none, none⟩

/-- Another concrete vacancy item. -/
def recB : Record := ⟨some "b", none, none, none, none, none⟩

/-- A fake upstream for the worker: every interval answers with a single
page holding one item. -/
def scripts7 : Nat → List (Response (Option Record)) :=
  fun i => [Response.ok (some [some (if i = 0 then recA else recB)]) (some 1)]

/-- Network script refuting the claim that at most 3 transient-failure
retries happen per interval: two timeouts, a successful non-final page
(which resets the budget, line 123), then three more timeouts. -/
def c1Script : List (Response Nat) :=
  [Response.timeout, Response.timeout, Response.ok (some [7]) (some 3),
    Response.timeout, Response.timeout, Response.timeout]

/-- A fake upstream reporting `n` total pages, answering page `i` with
the items `pages[i]`. -/
def fakeScript {α : Type} (n : Nat) (pages : List (List α)) : List (Response α) :=
  pages.map (fun l => Response.ok (some l) (some n))

/-- A concrete initial params dict, used to instantiate theorems. -/
def pBase : ReqParams := ⟨"q", 113, "a", "b", 100, 0⟩

end JobParser

namespace JobParser

theorem date_range_nil (fuel : Nat) (c e d : Int) (h : ¬ c < e) :
    date_range fuel c e d = [] := by
  cases fuel with
  | zero => rfl
  | succ n => simp [date_range, h]

theorem getLast?_cons_ne {a : Int × Int} {l : List (Int × Int)} (h : l ≠ []) :
    (a :: l).getLast? = l.getLast? := by
  cases l with
  | nil => exact absurd rfl h
  | cons b m => simp [List.getLast?_cons_cons]

theorem date_range_main (fuel : Nat) :
    ∀ cur e delta : Int, 0 < delta → cur < e → e - cur ≤ delta * (fuel : Int) →
    chainFrom cur (date_range fuel cur e delta) = true ∧
    date_range fuel cur e delta ≠ [] ∧
    lastSnd (date_range fuel cur e delta) = some e ∧
    (∀ p ∈ date_range fuel cur e delta, p.1 < p.2 ∧ p.2 - p.1 ≤ delta) ∧
    (∃ q, (date_range fuel cur e delta).getLast? = some q ∧
      q.2 - q.1 = if (e - cur) % delta = 0 then delta else (e - cur) % delta) := by
  induction fuel with
  | zero =>
    intro cur e delta hd hlt hle
    simp at hle
    omega
  | succ n ih =>
    intro cur e delta hd hlt hle
    by_cases hm : e ≤ cur + delta
    · have hmin : min (cur + delta) e = e := min_eq_right hm
      have htail : date_range n e e delta = [] := date_range_nil n e e delta (lt_irrefl e)
      have hlist : date_range (n + 1) cur e delta = [(cur, e)] := by
        simp [date_range, hlt, hmin, htail]
      refine ⟨?_, ?_, ?_, ?_, ?_⟩
      · simp [hlist, chainFrom]
      · simp [hlist]
      · simp [hlist, lastSnd]
      · intro p hp
        simp [hlist] at hp
        subst hp
        constructor
        · exact hlt
        · omega
      · refine ⟨(cur, e), by simp [hlist], ?_⟩
        by_cases h0 : (e - cur) % delta = 0
        · have hdvd : delta ∣ (e - cur) := Int.dvd_of_emod_eq_zero h0
          have hge : delta ≤ e - cur := Int.le_of_dvd (by omega) hdvd
          simp [h0]
          omega
        · have hlt2 : e - cur < delta := by
            rcases lt_or_eq_of_le (by omega : e - cur ≤ delta) with h | h
            · exact h
            · exact absurd (by rw [h]; exact Int.emod_self) h0
          have hmv : (e - cur) % delta = e - cur := Int.emod_eq_of_lt (by omega) hlt2
          rw [if_neg h0]
          exact hmv.symm
    · push_neg at hm
      have hmin : min (cur + delta) e = cur + delta := min_eq_left (le_of_lt hm)
      have hle2 : e - (cur + delta) ≤ delta * (n : Int) := by
        have hcast : ((n + 1 : Nat) : Int) = (n : Int) + 1 := by push_cast; ring
        rw [hcast] at hle
        have := mul_add_one delta (n : Int)
        linarith [hle, this]
      obtain ⟨ihc, ihne, ihlast, ihlen, q, hq, hqlen⟩ :=
        ih (cur + delta) e delta hd hm hle2
      have hlist : date_range (n + 1) cur e delta =
          (cur, cur + delta) :: date_range n (cur + delta) e delta := by
        simp [date_range, hlt, hmin]
      refine ⟨?_, ?_, ?_, ?_, ?_⟩
      · simp [hlist, chainFrom, ihc]
      · simp [hlist]
      · rw [hlist, lastSnd, getLast?_cons_ne ihne]
        exact ihlast
      · intro p hp
        rw [hlist] at hp
        rcases List.mem_cons.mp hp with h | h
        · subst h
          constructor
          · omega
          · omega
        · exact ihlen p h
      · refine ⟨q, ?_, ?_⟩
        · rw [hlist, getLast?_cons_ne ihne]
          exact hq
        · have hmod : (e - cur) % delta = (e - (cur + delta)) % delta := by
            have h2 : e - cur = (e - (cur + delta)) + delta * 1 := by ring
            rw [h2, Int.add_mul_emod_self_left]
          rw [hmod]
          exact hqlen

theorem chain_lower (l : List (Int × Int)) :
    ∀ s : Int, chainFrom s l = true → (∀ p ∈ l, p.1 < p.2) →
    ∀ p ∈ l, s ≤ p.1 := by
  induction l with
  | nil => intro s _ _ p hp; simp at hp
  | cons a rest ih =>
    intro s hc hpos p hp
    obtain ⟨a1, a2⟩ := a
    simp [chainFrom] at hc
    obtain ⟨ha, hcr⟩ := hc
    have ha12 : a1 < a2 := hpos (a1, a2) (by simp)
    rcases List.mem_cons.mp hp with h | h
    · subst h; simp; omega
    · have := ih a2 hcr (fun q hq => hpos q (List.mem_cons_of_mem _ hq)) p h
      omega

theorem chain_pairwise (l : List (Int × Int)) :
    ∀ s : Int, chainFrom s l = true → (∀ p ∈ l, p.1 < p.2) →
    l.Pairwise (fun p q => p.2 ≤ q.1) := by
  induction l with
  | nil => intro s _ _; exact List.Pairwise.nil
  | cons a rest ih =>
    intro s hc hpos
    obtain ⟨a1, a2⟩ := a
    simp [chainFrom] at hc
    obtain ⟨ha, hcr⟩ := hc
    have hrpos : ∀ p ∈ rest, p.1 < p.2 :=
      fun q hq => hpos q (List.mem_cons_of_mem _ hq)
    refine List.Pairwise.cons ?_ (ih a2 hcr hrpos)
    intro q hq
    have := chain_lower rest a2 hcr hrpos q hq
    simp
    omega

theorem chain_le_end (l : List (Int × Int)) :
    ∀ s e : Int, chainFrom s l = true → lastSnd l = some e →
    (∀ p ∈ l, p.1 < p.2) → s ≤ e := by
  induction l with
  | nil => intro s e _ hl _; simp [lastSnd] at hl
  | cons a rest ih =>
    intro s e hc hl hpos
    obtain ⟨a1, a2⟩ := a
    simp [chainFrom] at hc
    obtain ⟨ha, hcr⟩ := hc
    have ha12 : a1 < a2 := hpos (a1, a2) (by simp)
    cases rest with
    | nil =>
      simp [lastSnd] at hl
      omega
    | cons b rest2 =>
      rw [lastSnd, getLast?_cons_ne (by simp)] at hl
      have := ih a2 e hcr hl (fun q hq => hpos q (List.mem_cons_of_mem _ hq))
      omega

theorem chain_cover (l : List (Int × Int)) :
    ∀ s e : Int, chainFrom s l = true → lastSnd l = some e →
    (∀ p ∈ l, p.1 < p.2) →
    ∀ x : Int, (∃ p ∈ l, p.1 ≤ x ∧ x < p.2) ↔ (s ≤ x ∧ x < e) := by
  induction l with
  | nil => intro s e _ hl _; simp [lastSnd] at hl
  | cons a rest ih =>
    intro s e hc hl hpos x
    obtain ⟨a1, a2⟩ := a
    simp [chainFrom] at hc
    obtain ⟨ha, hcr⟩ := hc
    subst ha
    have ha12 : a1 < a2 := hpos (a1, a2) (by simp)
    cases rest with
    | nil =>
      simp [lastSnd] at hl
      subst hl
      simp
    | cons b rest2 =>
      rw [lastSnd, getLast?_cons_ne (by simp)] at hl
      have hrpos : ∀ p ∈ b :: rest2, p.1 < p.2 :=
        fun q hq => hpos q (List.mem_cons_of_mem _ hq)
      have hiha := ih a2 e hcr hl hrpos x
      have hle : a2 ≤ e := chain_le_end (b :: rest2) a2 e hcr hl hrpos
      constructor
      · rintro ⟨p, hp, hx1, hx2⟩
        rcases List.mem_cons.mp hp with h | h
        · subst h; simp at hx1 hx2; omega
        · have := hiha.mp ⟨p, h, hx1, hx2⟩
          omega
      · rintro ⟨hx1, hx2⟩
        by_cases hxa : x < a2
        · exact ⟨(a1, a2), by simp, hx1, hxa⟩
        · push_neg at hxa
          obtain ⟨p, hp, hpx⟩ := hiha.mpr ⟨hxa, hx2⟩
          exact ⟨p, List.mem_cons_of_mem _ hp, hpx⟩

end JobParser

namespace JobParser

theorem fetchLoop_flag_false {α : Type} (flag : Nat → Bool) (script : List (Response α))
    (t : Nat) (params : ReqParams) (retries : Nat) (acc : List α) (trans : Nat)
    (reqs : List ReqParams) (sleeps : List Nat) (h : flag t = false) :
    fetchLoop flag script t params retries acc trans reqs sleeps =
      ⟨acc, t + 1, trans, reqs, sleeps, FetchExit.cancelled⟩ := by
  rw [fetchLoop.eq_def]
  simp [h]

theorem fetchLoop_budget {α : Type} (flag : Nat → Bool) (script : List (Response α))
    (t : Nat) (params : ReqParams) (acc : List α) (trans : Nat)
    (reqs : List ReqParams) (sleeps : List Nat) (h : flag t = true) :
    fetchLoop flag script t params 0 acc trans reqs sleeps =
      ⟨acc, t + 1, trans, reqs, sleeps, FetchExit.budgetExhausted⟩ := by
  rw [fetchLoop.eq_def]
  simp [h]

theorem fetchLoop_rateLimited {α : Type} (flag : Nat → Bool) (rest : List (Response α))
    (t : Nat) (params : ReqParams) (retries : Nat) (acc : List α) (trans : Nat)
    (reqs : List ReqParams) (sleeps : List Nat) (h : flag t = true) (hr : retries ≠ 0) :
    fetchLoop flag (Response.rateLimited :: rest) t params retries acc trans reqs sleeps =
      fetchLoop flag rest (t + 1) params retries acc trans (reqs ++ [params])
        (sleeps ++ [10000]) := by
  rw [fetchLoop.eq_def]
  simp [h, hr]

theorem fetchLoop_ok_last {α : Type} (flag : Nat → Bool) (rest : List (Response α))
    (oitems : Option (List α)) (opages : Option Nat)
    (t : Nat) (params : ReqParams) (retries : Nat) (acc : List α) (trans : Nat)
    (reqs : List ReqParams) (sleeps : List Nat) (h : flag t = true) (hr : retries ≠ 0)
    (hpage : opages.getD 1 - 1 ≤ params.page) :
    fetchLoop flag (Response.ok oitems opages :: rest) t params retries acc trans reqs sleeps =
      ⟨acc ++ oitems.getD [], t + 1, trans, reqs ++ [params], sleeps, FetchExit.pagesDone⟩ := by
  rw [fetchLoop.eq_def]
  simp [h, hr, hpage]

theorem fetchLoop_ok_next {α : Type} (flag : Nat → Bool) (rest : List (Response α))
    (oitems : Option (List α)) (opages : Option Nat)
    (t : Nat) (params : ReqParams) (retries : Nat) (acc : List α) (trans : Nat)
    (reqs : List ReqParams) (sleeps : List Nat) (h : flag t = true) (hr : retries ≠ 0)
    (hpage : ¬ opages.getD 1 - 1 ≤ params.page) :
    fetchLoop flag (Response.ok oitems opages :: rest) t params retries acc trans reqs sleeps =
      fetchLoop flag rest (t + 1) (nextPage params) 3 (acc ++ oitems.getD []) trans
        (reqs ++ [params]) (sleeps ++ [250]) := by
  rw [fetchLoop.eq_def]
  simp [h, hr, hpage]

theorem fetchLoop_connError {α : Type} (flag : Nat → Bool) (rest : List (Response α))
    (t : Nat) (params : ReqParams) (retries : Nat) (acc : List α) (trans : Nat)
    (reqs : List ReqParams) (sleeps : List Nat) (h : flag t = true) (hr : retries ≠ 0) :
    fetchLoop flag (Response.connError :: rest) t params retries acc trans reqs sleeps =
      fetchLoop flag rest (t + 1) params (retries - 1) acc (trans + 1)
        (reqs ++ [params]) (sleeps ++ [5000]) := by
  rw [fetchLoop.eq_def]
  simp [h, hr]

theorem fetchLoop_timeout {α : Type} (flag : Nat → Bool) (rest : List (Response α))
    (t : Nat) (params : ReqParams) (retries : Nat) (acc : List α) (trans : Nat)
    (reqs : List ReqParams) (sleeps : List Nat) (h : flag t = true) (hr : retries ≠ 0) :
    fetchLoop flag (Response.timeout :: rest) t params retries acc trans reqs sleeps =
      fetchLoop flag rest (t + 1) params (retries - 1) acc (trans + 1)
        (reqs ++ [params]) (sleeps ++ [3000]) := by
  rw [fetchLoop.eq_def]
  simp [h, hr]

theorem fetchLoop_otherError {α : Type} (flag : Nat → Bool) (rest : List (Response α))
    (t : Nat) (params : ReqParams) (retries : Nat) (acc : List α) (trans : Nat)
    (reqs : List ReqParams) (sleeps : List Nat) (h : flag t = true) (hr : retries ≠ 0) :
    fetchLoop flag (Response.otherError :: rest) t params retries acc trans reqs sleeps =
      ⟨acc, t + 1, trans, reqs ++ [params], sleeps, FetchExit.otherError⟩ := by
  rw [fetchLoop.eq_def]
  simp [h, hr]

end JobParser

namespace JobParser

theorem withPage_self (p : ReqParams) : withPage p p.page = p := rfl

theorem fetchLoop_fake {α : Type} (L : List (List α)) :
    ∀ (N k t retries : Nat) (params : ReqParams) (acc : List α) (trans : Nat)
      (reqs : List ReqParams) (sleeps : List Nat),
    params.page = k → k + L.length = N → L ≠ [] → 0 < retries →
    fetchLoop trueFlag (L.map (fun l => Response.ok (some l) (some N))) t params retries
        acc trans reqs sleeps =
      ⟨acc ++ L.flatten, t + L.length, trans,
        reqs ++ (List.range' k L.length).map (withPage params),
        sleeps ++ List.replicate (L.length - 1) 250, FetchExit.pagesDone⟩ := by
  induction L with
  | nil =>
    intro N k t retries params acc trans reqs sleeps _ _ hne _
    exact absurd rfl hne
  | cons a L2 ih =>
    intro N k t retries params acc trans reqs sleeps hk hN hne hr
    have hwp : withPage params k = params := by
      have h0 := withPage_self params
      rw [hk] at h0
      exact h0
    cases L2 with
    | nil =>
      have hN2 : k + 1 = N := by simpa using hN
      rw [List.map_cons, List.map_nil,
        fetchLoop_ok_last trueFlag _ _ _ t params retries acc trans reqs sleeps rfl (by omega)
          (by simp [hk]; omega)]
      simp [hwp, List.range'_one]
    | cons b L3 =>
      have hN2 : k + (L3.length + 2) = N := by
        simp at hN
        omega
      rw [List.map_cons,
        fetchLoop_ok_next trueFlag _ _ _ t params retries acc trans reqs sleeps rfl (by omega)
          (by simp [hk]; omega),
        ih N (k + 1) (t + 1) 3 (nextPage params) (acc ++ (some a).getD []) trans _ _
          (by simp [nextPage, hk]) (by simp; omega) (by simp) (by omega)]
      have hnw : withPage (nextPage params) = withPage params := rfl
      simp [hnw, List.range'_succ, hwp, List.append_assoc, List.replicate_succ]
      omega

end JobParser

namespace JobParser

theorem fetchLoop_pages_advance {α : Type} (L : List (List α)) :
    ∀ (N k t retries : Nat) (rest : List (Response α)) (params : ReqParams)
      (acc : List α) (trans : Nat) (reqs : List ReqParams) (sleeps : List Nat),
    params.page = k → k + L.length < N → 0 < retries →
    fetchLoop trueFlag ((L.map (fun l => Response.ok (some l) (some N))) ++ rest) t params
        retries acc trans reqs sleeps =
      fetchLoop trueFlag rest (t + L.length) (withPage params (k + L.length))
        (if L.length = 0 then retries else 3) (acc ++ L.flatten) trans
        (reqs ++ (List.range' k L.length).map (withPage params))
        (sleeps ++ List.replicate L.length 250) := by
  induction L with
  | nil =>
    intro N k t retries rest params acc trans reqs sleeps hk hN hr
    have hwp : withPage params k = params := by
      have h0 := withPage_self params
      rw [hk] at h0
      exact h0
    simp [hwp]
  | cons a L2 ih =>
    intro N k t retries rest params acc trans reqs sleeps hk hN hr
    have hwp : withPage params k = params := by
      have h0 := withPage_self params
      rw [hk] at h0
      exact h0
    have hN2 : k + (L2.length + 1) < N := by
      simp at hN
      omega
    rw [List.map_cons, List.cons_append,
      fetchLoop_ok_next trueFlag _ _ _ t params retries acc trans reqs sleeps rfl (by omega)
        (by simp [hk]; omega),
      ih N (k + 1) (t + 1) 3 rest (nextPage params) (acc ++ (some a).getD []) trans _ _
        (by simp [nextPage, hk]) (by omega) (by omega)]
    have hnw : withPage (nextPage params) = withPage params := rfl
    simp [hnw, List.range'_succ, hwp, List.append_assoc, List.replicate_succ]
    have e1 : t + 1 + L2.length = t + (L2.length + 1) := by omega
    have e2 : k + 1 + L2.length = k + (L2.length + 1) := by omega
    rw [e1, e2]

theorem runLoop_flag_false {α : Type} (flag : Nat → Bool) (scripts : Nat → List (Response α))
    (inject : Nat → Bool) (text : String) (iv : Int × Int) (rest : List (Int × Int))
    (i t total : Nat) (acc : List α) (prog : List Nat) (h : flag t = false) :
    runLoop flag scripts inject text (iv :: rest) i t total acc prog =
      ⟨BodyExit.cancelledEarly, t + 1, acc, prog⟩ := by
  simp [runLoop, h]

theorem runBody_pre_finished (flag : Nat → Bool)
    (scripts : Nat → List (Response (Option Record))) (inject : Nat → Bool)
    (parse : String → Option ParsedDate) (profession : String) (endDate : Int)
    (writeOk : Bool) :
    (runBody flag scripts inject parse profession endDate writeOk).finishedEmits = 0 ∧
    (runBody flag scripts inject parse profession endDate writeOk).raisedToController
      = false := by
  cases hE : (runLoop flag scripts inject profession (date_range 30 (endDate - 30) endDate 7)
      0 0 (date_range 30 (endDate - 30) endDate 7).length [] []).exitKind with
  | completed =>
    by_cases hA : (runLoop flag scripts inject profession
        (date_range 30 (endDate - 30) endDate 7) 0 0
        (date_range 30 (endDate - 30) endDate 7).length [] []).acc.isEmpty
    · simp [runBody, hE, hA]
    · simp [runBody, hE, hA]
  | cancelledEarly => simp [runBody, hE]
  | raised => simp [runBody, hE]

end JobParser

namespace JobParser

theorem mem_of_mem_dropWhile {p : Char → Bool} {c : Char} :
    ∀ l : List Char, c ∈ l.dropWhile p → c ∈ l := by
  intro l
  induction l with
  | nil => intro h; simp [List.dropWhile] at h
  | cons a rest ih =>
    intro h
    rw [List.dropWhile] at h
    by_cases hp : p a
    · simp [hp] at h
      exact List.mem_cons_of_mem _ (ih h)
    · simp [hp] at h
      simpa using h

theorem dropWhile_head?_not {p : Char → Bool} {c : Char} :
    ∀ l : List Char, (l.dropWhile p).head? = some c → p c = false := by
  intro l
  induction l with
  | nil => intro h; simp [List.dropWhile] at h
  | cons a rest ih =>
    intro h
    rw [List.dropWhile] at h
    by_cases hp : p a
    · simp [hp] at h
      exact ih h
    · simp [hp] at h
      subst h
      simpa using hp

/-- C1 (counterexample): the source resets the retry budget to 3 after
every successfully advanced page (line 123 of main.py), so a single
interval can consume more than 3 transient-failure retries in total
before being abandoned: two timeouts, one successful non-final page, then
three more timeouts give 5 transient failures and still end in
budget-exhausted abandonment. -/
theorem c1_counterexample :
    (get_vacancies trueFlag c1Script 0 "q" "a" "b").exitReason =
      FetchExit.budgetExhausted ∧
    (get_vacancies trueFlag c1Script 0 "q" "a" "b").transientFailures = 5 ∧
    ¬ (get_vacancies trueFlag c1Script 0 "q" "a" "b").transientFailures ≤ 3 ∧
    (get_vacancies trueFlag c1Script 0 "q" "a" "b").items = [7] := by
  refine ⟨by decide, by decide, by decide, by decide⟩

/-- C1 (amended): the fetcher keeps a retry budget that starts at 3 and
is reset to 3 after every successfully fetched non-final page; each
connectivity failure or timeout decrements the budget (pausing 5s for
connectivity failures, 3s for timeouts) and retries the same page with
unchanged parameters; with the budget exhausted the interval is
abandoned, returning the items accumulated so far; hence at most 3
consecutive transient-failure retries occur before abandonment (while
the per-interval total may exceed 3 when successful pages intervene). -/
theorem c1_retry_budget_amended {α : Type} (rest : List (Response α)) (t : Nat)
    (params : ReqParams) (retries : Nat) (acc : List α) (trans : Nat)
    (reqs : List ReqParams) (sleeps : List Nat) (hr : 0 < retries) :
    (fetchLoop trueFlag (Response.connError :: rest) t params retries acc trans reqs sleeps =
      fetchLoop trueFlag rest (t + 1) params (retries - 1) acc (trans + 1)
        (reqs ++ [params]) (sleeps ++ [5000])) ∧
    (fetchLoop trueFlag (Response.timeout :: rest) t params retries acc trans reqs sleeps =
      fetchLoop trueFlag rest (t + 1) params (retries - 1) acc (trans + 1)
        (reqs ++ [params]) (sleeps ++ [3000])) ∧
    (∀ script : List (Response α),
      fetchLoop trueFlag script t params 0 acc trans reqs sleeps =
        ⟨acc, t + 1, trans, reqs, sleeps, FetchExit.budgetExhausted⟩) ∧
    (fetchLoop trueFlag (Response.timeout :: Response.timeout :: Response.timeout :: rest) t
        params 3 acc trans reqs sleeps =
      ⟨acc, t + 4, trans + 3, reqs ++ [params, params, params],
        sleeps ++ [3000, 3000, 3000], FetchExit.budgetExhausted⟩) ∧
    (∀ (oitems : Option (List α)) (opages : Option Nat),
      ¬ opages.getD 1 - 1 ≤ params.page →
      fetchLoop trueFlag (Response.ok oitems opages :: rest) t params retries acc
          trans reqs sleeps =
        fetchLoop trueFlag rest (t + 1) (nextPage params) 3 (acc ++ oitems.getD [])
          trans (reqs ++ [params]) (sleeps ++ [250])) := by
  refine ⟨?_, ?_, ?_, ?_, ?_⟩
  · exact fetchLoop_connError trueFlag rest t params retries acc trans reqs sleeps rfl
      (by omega)
  · exact fetchLoop_timeout trueFlag rest t params retries acc trans reqs sleeps rfl
      (by omega)
  · intro script
    exact fetchLoop_budget trueFlag script t params acc trans reqs sleeps rfl
  · rw [fetchLoop_timeout trueFlag _ t params 3 acc trans reqs sleeps rfl (by omega),
      fetchLoop_timeout trueFlag _ (t + 1) params (3 - 1) acc (trans + 1) _ _ rfl (by omega),
      fetchLoop_timeout trueFlag _ (t + 2) params (3 - 1 - 1) acc (trans + 2) _ _ rfl (by omega),
      fetchLoop_budget trueFlag rest (t + 3) params acc (trans + 3) _ _ rfl]
    simp [List.append_assoc]
  · intro oitems opages hpage
    exact fetchLoop_ok_next trueFlag rest oitems opages t params retries acc trans reqs
      sleeps rfl (by omega) hpage

/-- Witness for the amended C1 theorem at a concrete input: three
consecutive timeouts with a full budget abandon the interval. -/
theorem c1_retry_budget_amended_witness :
    0 < 3 ∧
    fetchLoop trueFlag [Response.timeout, Response.timeout, Response.timeout] 0 pBase 3
        ([] : List Nat) 0 [] [] =
      ⟨[], 4, 3, [pBase, pBase, pBase], [3000, 3000, 3000], FetchExit.budgetExhausted⟩ := by
  refine ⟨by decide, ?_⟩
  have h := (c1_retry_budget_amended ([] : List (Response Nat)) 0 pBase 3 [] 0 [] []
    (by decide)).2.2.2.1
  simpa using h

/-- C2: for any positive step and any window with `start < end` (and
enough fuel for the source loop to finish), the planner yields a
contiguous chain of intervals starting at `start` and ending at `end`,
each non-empty and of length at most the step, pairwise ordered oldest
first and non-overlapping, covering exactly the half-open window; the
last interval has length `(end - start) % step`, or the full step when
the window divides evenly; concretely a 30-day window with a 7-day step
gives 5 intervals (four of 7 days and one of 2 days). -/
theorem c2_date_range_planner (start e delta : Int) (fuel : Nat) (hd : 0 < delta)
    (hlt : start < e) (hfuel : e - start ≤ delta * (fuel : Int)) :
    chainFrom start (date_range fuel start e delta) = true ∧
    lastSnd (date_range fuel start e delta) = some e ∧
    (∀ p ∈ date_range fuel start e delta, p.1 < p.2 ∧ p.2 - p.1 ≤ delta) ∧
    (date_range fuel start e delta).Pairwise (fun p q => p.2 ≤ q.1) ∧
    (∀ x : Int, (∃ p ∈ date_range fuel start e delta, p.1 ≤ x ∧ x < p.2) ↔
      (start ≤ x ∧ x < e)) ∧
    (∃ q, (date_range fuel start e delta).getLast? = some q ∧
      q.2 - q.1 = if (e - start) % delta = 0 then delta else (e - start) % delta) ∧
    date_range 30 0 30 7 = [(0, 7), (7, 14), (14, 21), (21, 28), (28, 30)] := by
  obtain ⟨hc, hne, hl, hlen, hq⟩ := date_range_main fuel start e delta hd hlt hfuel
  have hpos : ∀ p ∈ date_range fuel start e delta, p.1 < p.2 := fun p hp => (hlen p hp).1
  exact ⟨hc, hl, hlen, chain_pairwise _ start hc hpos,
    chain_cover _ start e hc hl hpos, hq, by decide⟩

/-- Witness for the planner theorem at the concrete 30-day window. -/
theorem c2_date_range_planner_witness :
    (0 : Int) < 7 ∧ (0 : Int) < 30 ∧ (30 : Int) - 0 ≤ 7 * ((30 : Nat) : Int) ∧
    lastSnd (date_range 30 0 30 7) = some 30 := by
  refine ⟨by decide, by decide, by decide, ?_⟩
  exact (c2_date_range_planner 0 30 7 30 (by decide) (by decide) (by decide)).2.1

/-- C3: against a fake upstream that reports `N` total pages and answers
every request successfully, the fetcher requests pages `0 … N-1` in
order, stops exactly when the page index reaches the reported page count
minus one, and returns the concatenation of all pages, so the item count
is the total across all pages. -/
theorem c3_fetch_all_pages {α : Type} (pages : List (List α)) (N : Nat)
    (text date_from date_to : String) (hlen : pages.length = N) (hN : 1 ≤ N) :
    (get_vacancies trueFlag (fakeScript N pages) 0 text date_from date_to).items =
      pages.flatten ∧
    (get_vacancies trueFlag (fakeScript N pages) 0 text date_from date_to).items.length =
      (pages.map List.length).sum ∧
    (get_vacancies trueFlag (fakeScript N pages) 0 text date_from date_to).requests.map
      (fun p => p.page) = List.range N ∧
    (get_vacancies trueFlag (fakeScript N pages) 0 text date_from date_to).exitReason =
      FetchExit.pagesDone := by
  subst hlen
  have hne : pages ≠ [] := by
    intro hc
    subst hc
    simp at hN
  have h := fetchLoop_fake pages pages.length 0 0 3
    ⟨text, 113, date_from, date_to, 100, 0⟩ [] 0 [] [] rfl (by omega) hne (by omega)
  unfold get_vacancies fakeScript
  rw [h]
  refine ⟨by simp, ?_, ?_, rfl⟩
  · simp
  · simp only [List.nil_append, List.map_map]
    rw [show ((fun p => p.page) ∘
        withPage (⟨text, 113, date_from, date_to, 100, 0⟩ : ReqParams)) = fun j : Nat => j
      from rfl, List.range_eq_range']
    exact List.map_id' (List.range' 0 pages.length)

/-- Witness for the fake-upstream theorem: two pages of sizes 2 and 1. -/
theorem c3_fetch_all_pages_witness :
    ([[1, 2], [3]] : List (List Nat)).length = 2 ∧ 1 ≤ 2 ∧
    (get_vacancies trueFlag (fakeScript 2 [[1, 2], [3]]) 0 "q" "a" "b").items =
      [1, 2, 3] := by
  refine ⟨by decide, by decide, ?_⟩
  have h := (c3_fetch_all_pages ([[1, 2], [3]] : List (List Nat)) 2 "q" "a" "b"
    (by decide) (by decide)).1
  rw [h]
  decide

/-- C4: a rate-limited (403) response never touches the retry budget:
any number `n` of consecutive 403 responses leaves the fetcher running
with the same budget, the same page and otherwise unchanged state,
having slept the fixed 10-second cooldown and re-issued the identical
request parameters `n` times. -/
theorem c4_rate_limit_keeps_budget {α : Type} (n : Nat) :
    ∀ (rest : List (Response α)) (t : Nat) (params : ReqParams) (retries : Nat)
      (acc : List α) (trans : Nat) (reqs : List ReqParams) (sleeps : List Nat),
    0 < retries →
    fetchLoop trueFlag (List.replicate n Response.rateLimited ++ rest) t params retries
        acc trans reqs sleeps =
      fetchLoop trueFlag rest (t + n) params retries acc trans
        (reqs ++ List.replicate n params) (sleeps ++ List.replicate n 10000) := by
  induction n with
  | zero =>
    intro rest t params retries acc trans reqs sleeps _
    simp
  | succ m ih =>
    intro rest t params retries acc trans reqs sleeps h
    rw [List.replicate_succ, List.cons_append,
      fetchLoop_rateLimited trueFlag _ t params retries acc trans reqs sleeps rfl (by omega),
      ih _ _ _ _ _ _ _ _ h]
    have h1 : t + 1 + m = t + (m + 1) := by omega
    simp [h1, List.replicate_succ, List.append_assoc]

/-- Witness for the rate-limit theorem: three consecutive 403s. -/
theorem c4_rate_limit_keeps_budget_witness :
    0 < 3 ∧
    fetchLoop trueFlag (List.replicate 3 Response.rateLimited ++ ([] : List (Response Nat)))
        0 pBase 3 [] 0 [] [] =
      fetchLoop trueFlag [] (0 + 3) pBase 3 [] 0 ([] ++ List.replicate 3 pBase)
        ([] ++ List.replicate 3 10000) :=
  ⟨by decide, c4_rate_limit_keeps_budget 3 [] 0 pBase 3 [] 0 [] [] (by decide)⟩

/-- C5: any request failure other than connectivity/timeout/rate-limit
aborts the interval at once: after any number of successfully advanced
pages, an `otherError` response makes the fetcher return exactly the
items accumulated so far (with the rest of the script untouched), with
no transient retry consumed and no exception — the exit is the recorded
`otherError` break of line 137. -/
theorem c5_other_error_aborts {α : Type} (L : List (List α)) (N : Nat)
    (junk : List (Response α)) (text date_from date_to : String) (h : L.length < N) :
    (get_vacancies trueFlag ((L.map (fun l => Response.ok (some l) (some N))) ++
        Response.otherError :: junk) 0 text date_from date_to).items = L.flatten ∧
    (get_vacancies trueFlag ((L.map (fun l => Response.ok (some l) (some N))) ++
        Response.otherError :: junk) 0 text date_from date_to).transientFailures = 0 ∧
    (get_vacancies trueFlag ((L.map (fun l => Response.ok (some l) (some N))) ++
        Response.otherError :: junk) 0 text date_from date_to).exitReason =
      FetchExit.otherError := by
  unfold get_vacancies
  rw [fetchLoop_pages_advance L N 0 0 3 (Response.otherError :: junk)
    ⟨text, 113, date_from, date_to, 100, 0⟩ [] 0 [] [] rfl (by omega) (by omega)]
  rw [ite_self,
    fetchLoop_otherError trueFlag junk _ _ 3 _ 0 _ _ rfl (by omega)]
  simp

/-- Witness for the abort-on-other-error theorem: one good page, then a
hard error, then unreachable junk. -/
theorem c5_other_error_aborts_witness :
    ([[5]] : List (List Nat)).length < 2 ∧
    (get_vacancies trueFlag (([[5]].map (fun l => Response.ok (some l) (some 2))) ++
        Response.otherError :: [Response.rateLimited]) 0 "q" "a" "b").items =
      [[5]].flatten :=
  ⟨by decide,
    (c5_other_error_aborts ([[5]] : List (List Nat)) 2 [Response.rateLimited]
      "q" "a" "b" (by decide)).1⟩

/-- C6: for every environment — any cancellation pattern, any network
behaviour, any injected top-level fault, any export outcome — one worker
run emits the terminal finished signal exactly once and never lets an
exception escape to the controller. -/
theorem c6_terminal_signal_once (flag : Nat → Bool)
    (scripts : Nat → List (Response (Option Record))) (inject : Nat → Bool)
    (parse : String → Option ParsedDate) (profession : String) (endDate : Int)
    (writeOk : Bool) :
    (run flag scripts inject parse profession endDate writeOk).finishedEmits = 1 ∧
    (run flag scripts inject parse profession endDate writeOk).raisedToController =
      false := by
  have h := runBody_pre_finished flag scripts inject parse profession endDate writeOk
  unfold run finallyEmit
  exact ⟨by rw [h.1], h.2⟩

/-- C7: the cancellation flag is read before each interval (line 53) and
before each page request (line 103); a cleared flag makes the interval
loop return at once with the accumulation intact and makes the fetcher
return its partial items without issuing the pending request; concretely,
clearing the flag before interval 3 of 5 yields exactly the two fetched
intervals' items, no export, and one terminal signal. -/
theorem c7_cancellation_boundaries {α : Type} (flag : Nat → Bool)
    (scripts : Nat → List (Response α)) (inject : Nat → Bool) (text : String)
    (iv : Int × Int) (rest : List (Int × Int)) (i t total : Nat) (acc : List α)
    (prog : List Nat) (script : List (Response α)) (params : ReqParams) (retries : Nat)
    (facc : List α) (trans : Nat) (reqs : List ReqParams) (sleeps : List Nat)
    (h : flag t = false) :
    runLoop flag scripts inject text (iv :: rest) i t total acc prog =
      ⟨BodyExit.cancelledEarly, t + 1, acc, prog⟩ ∧
    fetchLoop flag script t params retries facc trans reqs sleeps =
      ⟨facc, t + 1, trans, reqs, sleeps, FetchExit.cancelled⟩ ∧
    run cancelFlag4 scripts7 noInject parse0 "welder" 30 true =
      ⟨1, false, false, [some recA, some recB], none, none, false, [20, 40]⟩ :=
  ⟨runLoop_flag_false flag scripts inject text iv rest i t total acc prog h,
    fetchLoop_flag_false flag script t params retries facc trans reqs sleeps h,
    by decide⟩

/-- Witness for the cancellation theorem: the flag cleared at check 4. -/
theorem c7_cancellation_boundaries_witness :
    cancelFlag4 4 = false ∧
    runLoop cancelFlag4 (fun _ => ([] : List (Response Nat))) noInject "w" [(0, 7)] 0 4 1
        [] [] = ⟨BodyExit.cancelledEarly, 5, [], []⟩ := by
  refine ⟨by decide, ?_⟩
  have h := (c7_cancellation_boundaries cancelFlag4 (fun _ => ([] : List (Response Nat)))
    noInject "w" (0, 7) [] 0 4 1 [] [] [] pBase 3 [] 0 [] [] (by decide)).1
  simpa using h

/-- C8 (counterexample): sanitising the query `"C++ dev/eng"` replaces
each of `+`, `+` and the space with `_`, giving base name `C___dev_eng`
with three underscores — not the `C__dev_eng` of the claim. -/
theorem c8_counterexample :
    safe_name "C++ dev/eng" = "C___dev_eng" ∧
    safe_name "C++ dev/eng" ≠ "C__dev_eng" ∧
    file_name "C++ dev/eng" ≠ "C__dev_eng_vacancies.xlsx" := by
  refine ⟨by decide, by decide, by decide⟩

/-- C8 (amended): the output filename is derived deterministically by
replacing every character that is not alphanumeric, `_` or `-` with `_`,
stripping trailing underscores and appending `_vacancies.xlsx`; in
particular `"C++ dev/eng"` yields base name `C___dev_eng` (both `+` and
the space become `_`). -/
theorem c8_filename_amended :
    (∀ s : String,
      safe_name s = String.mk (rstripUnderscore (s.data.map (fun c =>
        if c.isAlphanum || c = '_' || c = '-' then c else '_'))) ∧
      (safe_name s).data.all (fun c => c.isAlphanum || c = '_' || c = '-') = true ∧
      (safe_name s).data.getLast? ≠ some '_' ∧
      file_name s = safe_name s ++ "_vacancies.xlsx") ∧
    file_name "C++ dev/eng" = "C___dev_eng_vacancies.xlsx" := by
  refine ⟨fun s => ⟨rfl, ?_, ?_, rfl⟩, by decide⟩
  · rw [List.all_eq_true]
    intro c hc
    have hmem : c ∈ s.data.map sanitizeChar := by
      have h1 : c ∈ (s.data.map sanitizeChar).reverse.dropWhile (fun x => x = '_') := by
        have := List.mem_reverse.mpr hc
        simpa [safe_name, rstripUnderscore] using this
      exact List.mem_reverse.mp (mem_of_mem_dropWhile _ h1)
    obtain ⟨c0, _, hc0⟩ := List.mem_map.mp hmem
    subst hc0
    unfold sanitizeChar
    by_cases hok : c0.isAlphanum || c0 = '_' || c0 = '-'
    · simp [hok]
    · simp [hok]
  · intro hlast
    have h1 : ((s.data.map sanitizeChar).reverse.dropWhile (fun x => x = '_')).head? =
        some '_' := by
      have h2 : (safe_name s).data =
          ((s.data.map sanitizeChar).reverse.dropWhile (fun x => x = '_')).reverse := rfl
      rw [h2, List.getLast?_reverse] at hlast
      exact hlast
    have := dropWhile_head?_not _ h1
    simp at this

/-- Witness instantiating the amended filename theorem. -/
theorem c8_filename_amended_witness :
    (safe_name "ab_").data.getLast? ≠ some '_' ∧ safe_name "ab_" = "ab" :=
  ⟨((c8_filename_amended.1 "ab_").2.2.1), by decide⟩

/-- C9: the exporter produces one row per non-null record, each row an
8-cell list in the fixed order Title, Company, Salary-From, Salary-To,
Currency, Region, Published-At, URL; null salary fields render as empty
cells (which are distinct from the number 0), a missing/unparsable
publish timestamp renders as the sentinel `"N/A"`, and a parsable one is
reformatted to the fixed `%d.%m.%Y %H:%M` display format. -/
theorem c9_export_rows (parse : String → Option ParsedDate)
    (vacancies : List (Option Record)) (profession : String) (writeOk : Bool) :
    (save_to_excel parse profession vacancies writeOk).rows =
      (vacancies.filterMap id).map (makeRow parse) ∧
    (save_to_excel parse profession vacancies writeOk).rows.length =
      (vacancies.filterMap id).length ∧
    (∀ item : Record, (makeRow parse item).length = 8) ∧
    (∀ item : Record, makeRow parse item =
      [cellOfStr item.name, cellOfStr ((item.employer.getD ⟨none⟩).name),
        cellOfNum ((item.salary.getD ⟨none, none, none⟩).fromVal),
        cellOfNum ((item.salary.getD ⟨none, none, none⟩).toVal),
        cellOfStr ((item.salary.getD ⟨none, none, none⟩).currency),
        cellOfStr ((item.area.getD ⟨none⟩).name),
        Cell.str (pubCell parse item), cellOfStr item.alternate_url]) ∧
    (∀ item : Record, item.salary = none →
      (makeRow parse item).get? 2 = some Cell.empty ∧
      (makeRow parse item).get? 3 = some Cell.empty) ∧
    (∀ n : Int, Cell.empty ≠ Cell.num n) ∧
    (∀ item : Record, parse (item.published_at.getD "") = none →
      (makeRow parse item).get? 6 = some (Cell.str "N/A")) ∧
    (∀ (item : Record) (d : ParsedDate), parse (item.published_at.getD "") = some d →
      (makeRow parse item).get? 6 = some (Cell.str (strftimeDM d))) := by
  refine ⟨rfl, by simp [save_to_excel], fun item => rfl, fun item => rfl, ?_, ?_, ?_, ?_⟩
  · intro item hs
    simp [makeRow, hs, cellOfNum]
  · intro n hc
    cases hc
  · intro item hp
    simp [makeRow, pubCell, hp]
  · intro item d hp
    simp [makeRow, pubCell, hp]

/-- Witness for the exporter theorem on a record with null salary and a
missing publish timestamp. -/
theorem c9_export_rows_witness :
    recA.salary = none ∧ parse0 (recA.published_at.getD "") = none ∧
    (makeRow parse0 recA).get? 2 = some Cell.empty ∧
    (makeRow parse0 recA).get? 6 = some (Cell.str "N/A") := by
  have h := c9_export_rows parse0 [] "w" true
  exact ⟨rfl, rfl, (h.2.2.2.2.1 recA rfl).1, h.2.2.2.2.2.2.1 recA rfl⟩

/-- C10: when the interval loop exits through the cancellation branch,
the run returns before the exporter is invoked: nothing is written, no
filename is produced, and the accumulated items survive only in the
in-memory result of the run. -/
theorem c10_cancel_skips_export (flag : Nat → Bool)
    (scripts : Nat → List (Response (Option Record))) (inject : Nat → Bool)
    (parse : String → Option ParsedDate) (profession : String) (endDate : Int)
    (writeOk : Bool)
    (h : (runLoop flag scripts inject profession (date_range 30 (endDate - 30) endDate 7)
        0 0 (date_range 30 (endDate - 30) endDate 7).length [] []).exitKind =
      BodyExit.cancelledEarly) :
    (run flag scripts inject parse profession endDate writeOk).savedRows = none ∧
    (run flag scripts inject parse profession endDate writeOk).savedFile = none ∧
    (run flag scripts inject parse profession endDate writeOk).fileWritten = false ∧
    (run flag scripts inject parse profession endDate writeOk).acc =
      (runLoop flag scripts inject profession (date_range 30 (endDate - 30) endDate 7)
        0 0 (date_range 30 (endDate - 30) endDate 7).length [] []).acc := by
  unfold run finallyEmit
  simp [runBody, h]

/-- Witness for the cancelled-run theorem: the flag cleared at check 2,
after one interval that fetched one item; no export happens though the
accumulation is non-empty. -/
theorem c10_cancel_skips_export_witness :
    (runLoop cancelFlag2 scripts7 noInject "welder"
        (date_range 30 ((30 : Int) - 30) 30 7) 0 0
        (date_range 30 ((30 : Int) - 30) 30 7).length [] []).exitKind =
      BodyExit.cancelledEarly ∧
    (run cancelFlag2 scripts7 noInject parse0 "welder" 30 true).savedRows = none ∧
    (run cancelFlag2 scripts7 noInject parse0 "welder" 30 true).acc = [some recA] :=
  ⟨by decide,
    (c10_cancel_skips_export cancelFlag2 scripts7 noInject parse0 "welder" 30 true
      (by decide)).1,
    by decide⟩

end JobParser
